import Mathlib

/-!
Verification of the concurrent HTTP load tester
(`.context/scripts/load-test.py`) against its natural-language
specification.

The script is shallowly embedded:
* Python floats are modelled as exact rationals (`ℚ`); Python ints as
  `Nat`/`Int`.
* The fallible paths of the script (e.g. `calculate_statistics`
  returning `None`) are modelled with `Option`.
* The two asyncio drivers are modelled as follows: the count-bound
  driver (`run_count_test`) batches tasks and awaits each full batch
  before creating more, so it is embedded as a fold producing the list
  of concurrently-executed batches; the duration-bound driver
  (`run_duration_test`), which uses a semaphore, a queue and a pool of
  worker coroutines, is embedded as a small-step transition system on
  an explicit scheduler state with an abstract integer clock.
* Wall-clock readings (`time.time()`, `datetime.now()`) are inputs of
  the embedding (clock parameters / transition steps), since they are
  environment-supplied.
-/

/-- One entry of `self.results` in `LoadTester`: the dict built by
`make_request` on the success path. -/
structure SuccessRecord where
  request_id : Nat
  status_code : Nat
  response_time : ℚ
  content_length : Nat
  timestamp : Nat
deriving DecidableEq

/-- One entry of `self.errors`: the dict built by `make_request` on the
timeout / exception paths. -/
structure ErrorRecord where
  request_id : Nat
  error : String
  response_time : ℚ
  timestamp : Nat
deriving DecidableEq

/-- The mutable attributes of a `LoadTester` instance: the constructor
arguments plus the accumulated result sink and the run clock stamps. -/
structure TesterState where
  url : String
  concurrent : Int
  total_requests : Int
  duration : Option Int
  timeout_s : Int
  results : List SuccessRecord
  errors : List ErrorRecord
  start_time : ℚ
  end_time : ℚ
deriving DecidableEq

/-- Outcome of the network interaction inside `make_request`: either a
response whose body was fully read, an `asyncio.TimeoutError`, or any
other `Exception` rendered by `str(e)`.  (`BaseException`s such as task
cancellation are not failures of the request and are outside this
alphabet.) -/
inductive NetResult where
  | success (status : Nat) (body : String)
  | timeout
  | failure (msg : String)
deriving DecidableEq

/-- The value returned by `make_request`: the result dict or the error
dict.  There is no "raise" alternative: the source catches
`asyncio.TimeoutError` and `Exception` and returns dicts. -/
inductive Outcome where
  | success (r : SuccessRecord)
  | failure (e : ErrorRecord)
deriving DecidableEq

/-- `LoadTester.make_request`: performs one GET (its outcome is the
`net` input), records the elapsed time `t1 - t0`, appends the result
dict to `self.results` or the error dict to `self.errors`, and returns
that dict.  All three paths return a value; nothing is raised. -/
def make_request (s : TesterState) (request_id : Nat) (net : NetResult)
    (t0 t1 : ℚ) (ts : Nat) : TesterState × Outcome :=
  match net with
  | NetResult.success status body =>
      let r : SuccessRecord :=
        ⟨request_id, status, t1 - t0, body.length, ts⟩
      ({ s with results := s.results ++ [r] }, Outcome.success r)
  | NetResult.timeout =>
      let e : ErrorRecord := ⟨request_id, "Timeout", t1 - t0, ts⟩
      ({ s with errors := s.errors ++ [e] }, Outcome.failure e)
  | NetResult.failure msg =>
      let e : ErrorRecord := ⟨request_id, msg, t1 - t0, ts⟩
      ({ s with errors := s.errors ++ [e] }, Outcome.failure e)

/-- Python `min(l)` over a nonempty list; the default is junk for `[]`
(where the source would raise, a path unreachable in its callers). -/
def listMin {α : Type} [Min α] (dflt : α) : List α → α
  | [] => dflt
  | x :: xs => xs.foldl min x

/-- Python `max(l)` over a nonempty list; junk default for `[]`. -/
def listMax {α : Type} [Max α] (dflt : α) : List α → α
  | [] => dflt
  | x :: xs => xs.foldl max x

/-- `statistics.mean` over rationals: sum divided by length (junk `0`
on `[]`, by `ℚ` division-by-zero convention; the source raises there,
a path unreachable in its callers). -/
def listMean (l : List ℚ) : ℚ := l.sum / l.length

/-- `statistics.mean` over a list of ints, as an exact rational. -/
def listMeanN (l : List Nat) : ℚ := ((l.map (Nat.cast)).sum : ℚ) / l.length

/-- `statistics.median`: middle element of the ascending sort for odd
length, average of the two middle elements for even length. -/
def listMedian (l : List ℚ) : ℚ :=
  let s := l.insertionSort (fun a b => a ≤ b)
  let n := s.length
  if n % 2 = 1 then s.getD (n / 2) 0
  else (s.getD (n / 2 - 1) 0 + s.getD (n / 2) 0) / 2

/-- Python `int()` on a non-negative rational: truncation, which for a
non-negative argument is the floor, computed as numerator divided by
denominator (rounded toward minus infinity on `ℤ`). -/
def ratFloor (q : ℚ) : ℤ := q.num / q.den

lemma ratFloor_eq_floor (q : ℚ) : ratFloor q = ⌊q⌋ := Rat.floor_def.symm

/-- Round a rational to the nearest integer, ties to even (the IEEE-754
default rounding of a significand). -/
def roundNE (x : ℚ) : ℤ :=
  let n := ⌊x⌋
  let f := x - n
  if f < 1 / 2 then n
  else if 1 / 2 < f then n + 1
  else if n % 2 = 0 then n else n + 1

/-- IEEE-754 binary64 (Python float) rounding of a non-negative
rational in the normal range: the nearest double, i.e. the nearest
53-bit-significand multiple of `2 ^ (⌊log2 q⌋ - 52)`, ties to even.
Subnormals, overflow and negative arguments do not occur in this
script's percentile index arithmetic (`0 ≤ p ≤ 100`, list lengths far
below `2 ^ 53`), so they are outside this model. -/
def fl64 (q : ℚ) : ℚ :=
  if q = 0 then 0
  else
    let s := Int.log 2 q - 52
    (roundNE (q / 2 ^ s) : ℚ) * 2 ^ s

lemma int_log2_eq {q : ℚ} {e : ℤ} (hq : 0 < q)
    (h1 : (2 : ℚ) ^ e ≤ q) (h2 : q < (2 : ℚ) ^ (e + 1)) :
    Int.log 2 q = e := by
  have ha : (2 : ℚ) ^ Int.log 2 q ≤ q :=
    Int.zpow_log_le_self (by norm_num) hq
  have hb : q < (2 : ℚ) ^ (Int.log 2 q + 1) :=
    Int.lt_zpow_succ_log_self (by norm_num) q
  by_contra hne
  rcases lt_or_gt_of_ne hne with h | h
  · have hle : (2 : ℚ) ^ (Int.log 2 q + 1) ≤ 2 ^ e :=
      zpow_le_zpow_right₀ one_le_two (by omega)
    linarith
  · have hle : (2 : ℚ) ^ (e + 1) ≤ 2 ^ Int.log 2 q :=
      zpow_le_zpow_right₀ one_le_two (by omega)
    linarith

lemma roundNE_down (x : ℚ) (n : ℤ) (hn : (n : ℚ) ≤ x ∧ x < n + 1)
    (hf : x - n < 1 / 2) : roundNE x = n := by
  have hfl : ⌊x⌋ = n := Int.floor_eq_iff.2 hn
  unfold roundNE
  rw [hfl, if_pos hf]

lemma roundNE_up (x : ℚ) (n : ℤ) (hn : (n : ℚ) ≤ x ∧ x < n + 1)
    (hf : 1 / 2 < x - n) : roundNE x = n + 1 := by
  have hfl : ⌊x⌋ = n := Int.floor_eq_iff.2 hn
  unfold roundNE
  rw [hfl, if_neg (by linarith), if_pos hf]

lemma fl64_eval (q : ℚ) (e n : ℤ) (hq : 0 < q)
    (h1 : (2 : ℚ) ^ e ≤ q) (h2 : q < (2 : ℚ) ^ (e + 1))
    (hn : roundNE (q / 2 ^ (e - 52)) = n) :
    fl64 q = n * 2 ^ (e - 52) := by
  unfold fl64
  rw [if_neg (ne_of_gt hq), int_log2_eq hq h1 h2]
  show ((roundNE (q / 2 ^ (e - 52)) : ℤ) : ℚ) * 2 ^ (e - 52) =
    (n : ℚ) * 2 ^ (e - 52)
  rw [hn]

lemma ratFloor_eval (q : ℚ) (n : ℤ) (h1 : (n : ℚ) ≤ q) (h2 : q < n + 1) :
    ratFloor q = n := by
  rw [ratFloor_eq_floor]
  exact Int.floor_eq_iff.2 ⟨h1, h2⟩

/-- `LoadTester.percentile`: sort ascending, take the element at index
`int((percentile / 100) * len(sorted_data))` clamped to `len - 1`.
The index arithmetic follows the source's Python float arithmetic:
`p / 100` rounds once to binary64 (every call site passes an int `p`,
exact in binary64), the product with the exact length rounds once
more, and `int()` truncates (the floor, both factors being
non-negative).  On `[]` the source raises; here the out-of-range read
is junk `0`, a path unreachable in its callers. -/
def percentile (data : List ℚ) (p : ℚ) : ℚ :=
  let sorted_data := data.insertionSort (fun a b => a ≤ b)
  let index :=
    (ratFloor (fl64 (fl64 (p / 100) * (sorted_data.length : ℚ)))).toNat
  sorted_data.getD (min index (sorted_data.length - 1)) 0

/-! Binary64 constants of the percentile index arithmetic, each proved
from `fl64_eval` by exhibiting the exponent and the rounded
significand: the doubles nearest to `29/100`, `19/20` (= 95/100) and
`99/100`, and the rounded products with the list lengths used in the
development (100, 10 and 7). -/

lemma fl64_c29 : fl64 (29 / 100) = 5224175567749775 / 18014398509481984 := by
  have h : fl64 (29 / 100) =
      ((5224175567749775 : ℤ) : ℚ) * 2 ^ ((-2 : ℤ) - 52) :=
    fl64_eval (29 / 100) (-2) 5224175567749775 (by norm_num) (by norm_num)
      (by norm_num)
      (roundNE_down ((29 : ℚ) / 100 / 2 ^ ((-2 : ℤ) - 52)) 5224175567749775
        ⟨by norm_num, by norm_num⟩ (by norm_num))
  rw [h]
  norm_num

lemma fl64_c29x100 :
    fl64 (130604389193744375 / 4503599627370496) =
      8162774324609023 / 281474976710656 := by
  have h : fl64 (130604389193744375 / 4503599627370496) =
      ((8162774324609023 : ℤ) : ℚ) * 2 ^ ((4 : ℤ) - 52) :=
    fl64_eval (130604389193744375 / 4503599627370496) 4 8162774324609023
      (by norm_num) (by norm_num) (by norm_num)
      (roundNE_down ((130604389193744375 : ℚ) / 4503599627370496 /
          2 ^ ((4 : ℤ) - 52)) 8162774324609023
        ⟨by norm_num, by norm_num⟩ (by norm_num))
  rw [h]
  norm_num

lemma fl64_c95 : fl64 (19 / 20) = 4278419646001971 / 4503599627370496 := by
  have h : fl64 (19 / 20) =
      ((8556839292003942 : ℤ) : ℚ) * 2 ^ ((-1 : ℤ) - 52) :=
    fl64_eval (19 / 20) (-1) 8556839292003942 (by norm_num) (by norm_num)
      (by norm_num)
      (roundNE_down ((19 : ℚ) / 20 / 2 ^ ((-1 : ℤ) - 52)) 8556839292003942
        ⟨by norm_num, by norm_num⟩ (by norm_num))
  rw [h]
  norm_num

lemma fl64_c95x10 :
    fl64 (21392098230009855 / 2251799813685248) = 19 / 2 := by
  have h : fl64 (21392098230009855 / 2251799813685248) =
      ((5348024557502464 : ℤ) : ℚ) * 2 ^ ((3 : ℤ) - 52) :=
    fl64_eval (21392098230009855 / 2251799813685248) 3 5348024557502464
      (by norm_num) (by norm_num) (by norm_num)
      ((roundNE_up ((21392098230009855 : ℚ) / 2251799813685248 /
          2 ^ ((3 : ℤ) - 52)) 5348024557502463
        ⟨by norm_num, by norm_num⟩ (by norm_num)).trans (by norm_num))
  rw [h]
  norm_num

lemma fl64_c95x7 :
    fl64 (29948937522013797 / 4503599627370496) =
      7487234380503449 / 1125899906842624 := by
  have h : fl64 (29948937522013797 / 4503599627370496) =
      ((7487234380503449 : ℤ) : ℚ) * 2 ^ ((2 : ℤ) - 52) :=
    fl64_eval (29948937522013797 / 4503599627370496) 2 7487234380503449
      (by norm_num) (by norm_num) (by norm_num)
      (roundNE_down ((29948937522013797 : ℚ) / 4503599627370496 /
          2 ^ ((2 : ℤ) - 52)) 7487234380503449
        ⟨by norm_num, by norm_num⟩ (by norm_num))
  rw [h]
  norm_num

lemma fl64_c99 : fl64 (99 / 100) = 4458563631096791 / 4503599627370496 := by
  have h : fl64 (99 / 100) =
      ((8917127262193582 : ℤ) : ℚ) * 2 ^ ((-1 : ℤ) - 52) :=
    fl64_eval (99 / 100) (-1) 8917127262193582 (by norm_num) (by norm_num)
      (by norm_num)
      (roundNE_down ((99 : ℚ) / 100 / 2 ^ ((-1 : ℤ) - 52)) 8917127262193582
        ⟨by norm_num, by norm_num⟩ (by norm_num))
  rw [h]
  norm_num

lemma fl64_c99x7 :
    fl64 (31209945417677537 / 4503599627370496) =
      975310794302423 / 140737488355328 := by
  have h : fl64 (31209945417677537 / 4503599627370496) =
      ((7802486354419384 : ℤ) : ℚ) * 2 ^ ((2 : ℤ) - 52) :=
    fl64_eval (31209945417677537 / 4503599627370496) 2 7802486354419384
      (by norm_num) (by norm_num) (by norm_num)
      (roundNE_down ((31209945417677537 : ℚ) / 4503599627370496 /
          2 ^ ((2 : ℤ) - 52)) 7802486354419384
        ⟨by norm_num, by norm_num⟩ (by norm_num))
  rw [h]
  norm_num

/-- The ascending 100-element list `0, 1, …, 99`. -/
def qList100 : List ℚ := List.map Nat.cast (List.range 100)

lemma qList100_sorted : qList100.Sorted (fun a b => a ≤ b) := by
  unfold qList100
  apply List.Pairwise.map Nat.cast
  · intro a b hab
    exact_mod_cast hab
  · exact List.sorted_le_range 100

lemma qList100_length : qList100.length = 100 := by
  simp [qList100]

lemma qList100_getD (k : Nat) (hk : k < 100) :
    qList100.getD k 0 = (k : ℚ) := by
  unfold qList100
  rw [List.getD_eq_getElem?_getD, List.getElem?_map, List.getElem?_range hk]
  rfl

set_option maxRecDepth 8000 in
lemma percentile_qList100_29 : percentile qList100 29 = 28 := by
  have hs : qList100.insertionSort (fun a b => a ≤ b) = qList100 :=
    List.Sorted.insertionSort_eq qList100_sorted
  simp only [percentile, hs, qList100_length]
  rw [show ((100 : ℕ) : ℚ) = 100 by norm_num, fl64_c29]
  rw [show (5224175567749775 / 18014398509481984 * 100 : ℚ) =
    130604389193744375 / 4503599627370496 by norm_num]
  rw [fl64_c29x100]
  rw [show ratFloor (8162774324609023 / 281474976710656 : ℚ) = 28 from
    ratFloor_eval (8162774324609023 / 281474976710656) 28
      (by norm_num) (by norm_num)]
  rw [show ((28 : ℤ).toNat) ⊓ (100 - 1) = 28 by decide]
  rw [qList100_getD 28 (by norm_num)]
  norm_num

set_option maxRecDepth 8000 in
lemma percentile_1to10_95 :
    percentile [1, 2, 3, 4, 5, 6, 7, 8, 9, 10] 95 = 10 := by
  have hs : ([1, 2, 3, 4, 5, 6, 7, 8, 9, 10] : List ℚ).insertionSort
      (fun a b => a ≤ b) = [1, 2, 3, 4, 5, 6, 7, 8, 9, 10] :=
    List.Sorted.insertionSort_eq (by norm_num [List.sorted_cons])
  have hidx : (ratFloor (fl64 (fl64 ((95 : ℚ) / 100) *
      (([1, 2, 3, 4, 5, 6, 7, 8, 9, 10] : List ℚ).length : ℚ)))).toNat = 9 := by
    rw [show ((95 : ℚ) / 100) = 19 / 20 by norm_num, fl64_c95]
    rw [show ((([1, 2, 3, 4, 5, 6, 7, 8, 9, 10] : List ℚ).length : ℚ)) = 10 by
      norm_num]
    rw [show (4278419646001971 / 4503599627370496 * 10 : ℚ) =
      21392098230009855 / 2251799813685248 by norm_num]
    rw [fl64_c95x10]
    rw [show ratFloor (19 / 2 : ℚ) = 9 from
      ratFloor_eval (19 / 2) 9 (by norm_num) (by norm_num)]
    rfl
  simp only [percentile, hs, hidx]
  rfl

set_option maxRecDepth 8000 in
lemma percentile_ones_95 :
    percentile [1, 1, 1, 1, 1, 1, 1] 95 = 1 := by
  have hs : ([1, 1, 1, 1, 1, 1, 1] : List ℚ).insertionSort
      (fun a b => a ≤ b) = [1, 1, 1, 1, 1, 1, 1] :=
    List.Sorted.insertionSort_eq (by norm_num [List.sorted_cons])
  have hidx : (ratFloor (fl64 (fl64 ((95 : ℚ) / 100) *
      (([1, 1, 1, 1, 1, 1, 1] : List ℚ).length : ℚ)))).toNat = 6 := by
    rw [show ((95 : ℚ) / 100) = 19 / 20 by norm_num, fl64_c95]
    rw [show ((([1, 1, 1, 1, 1, 1, 1] : List ℚ).length : ℚ)) = 7 by norm_num]
    rw [show (4278419646001971 / 4503599627370496 * 7 : ℚ) =
      29948937522013797 / 4503599627370496 by norm_num]
    rw [fl64_c95x7]
    rw [show ratFloor (7487234380503449 / 1125899906842624 : ℚ) = 6 from
      ratFloor_eval (7487234380503449 / 1125899906842624) 6
        (by norm_num) (by norm_num)]
    rfl
  simp only [percentile, hs, hidx]
  rfl

set_option maxRecDepth 8000 in
lemma percentile_ones_99 :
    percentile [1, 1, 1, 1, 1, 1, 1] 99 = 1 := by
  have hs : ([1, 1, 1, 1, 1, 1, 1] : List ℚ).insertionSort
      (fun a b => a ≤ b) = [1, 1, 1, 1, 1, 1, 1] :=
    List.Sorted.insertionSort_eq (by norm_num [List.sorted_cons])
  have hidx : (ratFloor (fl64 (fl64 ((99 : ℚ) / 100) *
      (([1, 1, 1, 1, 1, 1, 1] : List ℚ).length : ℚ)))).toNat = 6 := by
    rw [fl64_c99]
    rw [show ((([1, 1, 1, 1, 1, 1, 1] : List ℚ).length : ℚ)) = 7 by norm_num]
    rw [show (4458563631096791 / 4503599627370496 * 7 : ℚ) =
      31209945417677537 / 4503599627370496 by norm_num]
    rw [fl64_c99x7]
    rw [show ratFloor (975310794302423 / 140737488355328 : ℚ) = 6 from
      ratFloor_eval (975310794302423 / 140737488355328) 6
        (by norm_num) (by norm_num)]
    rfl
  simp only [percentile, hs, hidx]
  rfl

/-- One step of `LoadTester.count_status_codes`'s loop body
`counts[code] = counts.get(code, 0) + 1` on an insertion-ordered
association list (the model of a Python dict): the first binding of
`code` is incremented in place, otherwise `(code, 1)` is appended. -/
def bump : List (Nat × Nat) → Nat → List (Nat × Nat)
  | [], code => [(code, 1)]
  | (k, v) :: rest, code =>
      if k = code then (k, v + 1) :: rest else (k, v) :: bump rest code

/-- `LoadTester.count_status_codes`: fold the status-code list into a
dict of occurrence counts. -/
def count_status_codes (status_codes : List Nat) : List (Nat × Nat) :=
  status_codes.foldl bump []

/-- Python `counts.get(code, 0)` on the association-list model. -/
def lookupCount : List (Nat × Nat) → Nat → Nat
  | [], _ => 0
  | (k, v) :: rest, code => if k = code then v else lookupCount rest code

/-- The `response_time` sub-dict of the statistics dict. -/
structure ResponseTimeStats where
  min : ℚ
  max : ℚ
  mean : ℚ
  median : ℚ
  p95 : ℚ
  p99 : ℚ
deriving DecidableEq

/-- The `content_length` sub-dict of the statistics dict. -/
structure ContentLengthStats where
  min : Nat
  max : Nat
  mean : ℚ
deriving DecidableEq

/-- The statistics dict built by `calculate_statistics`. -/
structure Stats where
  total_time : ℚ
  total_requests : Nat
  successful_requests : Nat
  failed_requests : Nat
  success_rate : ℚ
  requests_per_second : ℚ
  response_time : ResponseTimeStats
  content_length : ContentLengthStats
  status_codes : List (Nat × Nat)
deriving DecidableEq

/-- `LoadTester.calculate_statistics`: returns `None` when
`self.results` is empty (the "no data" signal), otherwise the
statistics dict.  Field by field from the source. -/
def calculate_statistics (s : TesterState) : Option Stats :=
  if s.results = [] then none
  else
    let response_times := s.results.map (fun r => r.response_time)
    let status_codes := s.results.map (fun r => r.status_code)
    let content_lengths := s.results.map (fun r => r.content_length)
    let total_time := s.end_time - s.start_time
    let total_requests := s.results.length + s.errors.length
    let successful_requests := s.results.length
    some
      { total_time := total_time
        total_requests := total_requests
        successful_requests := successful_requests
        failed_requests := s.errors.length
        success_rate :=
          if 0 < total_requests
          then (successful_requests : ℚ) / (total_requests : ℚ) * 100
          else 0
        requests_per_second :=
          if 0 < total_time then (successful_requests : ℚ) / total_time
          else 0
        response_time :=
          { min := listMin 0 response_times
            max := listMax 0 response_times
            mean := listMean response_times
            median := listMedian response_times
            p95 := percentile response_times 95
            p99 := percentile response_times 99 }
        content_length :=
          { min := listMin 0 content_lengths
            max := listMax 0 content_lengths
            mean := listMeanN content_lengths }
        status_codes := count_status_codes status_codes }

/-- What `LoadTester.print_report` renders: either the "no successful
requests, cannot generate a report" message or the statistics report. -/
inductive ReportOutput where
  | noData
  | report (st : Stats)
deriving DecidableEq

/-- `LoadTester.print_report`: `stats = self.calculate_statistics()`;
`if not stats: print(error); return` (a statistics dict is never falsy,
so `not stats` holds exactly for `None`), otherwise render it. -/
def print_report (s : TesterState) : ReportOutput :=
  match calculate_statistics s with
  | none => ReportOutput.noData
  | some st => ReportOutput.report st

/-- The dict `save_report` serializes: configuration echo, timestamp,
statistics, and bounded tails of the raw outcomes. -/
structure ReportData where
  cfg_url : String
  cfg_concurrent : Int
  cfg_total_requests : Int
  cfg_duration : Option Int
  cfg_timeout : Int
  timestamp : Nat
  statistics : Stats
  raw_results : List SuccessRecord
  raw_errors : List ErrorRecord
deriving DecidableEq

/-- `LoadTester.save_report`: returns without writing when
`calculate_statistics` signals no data; otherwise writes the report
dict with the last 100 results (`self.results[-100:]`) and the last 50
errors (`self.errors[-50:]`). -/
def save_report (s : TesterState) (now : Nat) : Option ReportData :=
  match calculate_statistics s with
  | none => none
  | some st =>
      some
        { cfg_url := s.url
          cfg_concurrent := s.concurrent
          cfg_total_requests := s.total_requests
          cfg_duration := s.duration
          cfg_timeout := s.timeout_s
          timestamp := now
          statistics := st
          raw_results := s.results.drop (s.results.length - 100)
          raw_errors := s.errors.drop (s.errors.length - 50) }

/-! ## The count-bound driver (`run_count_test`)

The loop appends `make_request` tasks one at a time and, whenever the
pending list reaches `self.concurrent` tasks, awaits them all with
`asyncio.gather` before creating any further task; a final `gather`
awaits the remainder.  Between two gathers the driver never yields, so
created tasks only start (and run concurrently) at the enclosing
gather: the list of gathered groups is exactly the list of sets of
`make_request` invocations that execute concurrently.  (The semaphore
created by `run_count_test` is never used in this mode.) -/

/-- The loop state of `run_count_test`: the pending `tasks` list and
the groups already awaited by a `gather`, in order. -/
structure CountLoopState where
  tasks : List Nat
  batches : List (List Nat)
deriving DecidableEq

/-- One iteration of the `for i in range(self.total_requests)` loop:
append task `i`; if `len(tasks) >= self.concurrent`, gather
`tasks[:concurrent]` (one more concurrently-executed batch) and keep
`tasks[concurrent:]`. -/
def countStep (c : Nat) (st : CountLoopState) (i : Nat) : CountLoopState :=
  let tasks' := st.tasks ++ [i]
  if c ≤ tasks'.length then
    { tasks := tasks'.drop c, batches := st.batches ++ [tasks'.take c] }
  else
    { tasks := tasks', batches := st.batches }

/-- The whole loop of `run_count_test`, started from empty state. -/
def countRun (n c : Nat) : CountLoopState :=
  (List.range n).foldl (countStep c) ⟨[], []⟩

/-- The groups of `make_request` invocations executed (concurrently)
by `run_count_test` with `total_requests = n`, `concurrent = c`: the
gathered batches of the loop plus the trailing
`if tasks: await asyncio.gather(*tasks)`. -/
def countBatches (n c : Nat) : List (List Nat) :=
  let st := countRun n c
  if st.tasks = [] then st.batches else st.batches ++ [st.tasks]

/-- The request ids issued by the count test: `range(total_requests)`
(empty when the configured count is not positive). -/
def countIssuedIds (n : Int) : List Nat := List.range n.toNat

/-! ## The duration-bound driver (`run_duration_test`)

Small-step model.  The participants, read off the source:

* the driver coroutine: while `time.time() < end_time` it puts
  `request_id` on the queue and increments the id; once the deadline
  passes it stops admitting and waits on `request_queue.flatten()`;
* `self.concurrent` worker coroutines: each repeatedly takes an id off
  the queue (`putIntoHand`), enters `async with semaphore`
  (`acquireSem`), runs `make_request` to completion, and calls
  `task_done` (`finishWork`); a worker whose 1-second
  `asyncio.wait_for` on an empty queue expires exits the pool
  (`workerQuit`);
* the semaphore `asyncio.Semaphore(self.concurrent)`.

`queue.flatten()` returns exactly when every id that was put has had its
`task_done` called, i.e. when `queue`, `hand` and `running` are all
empty; the worker tasks are cancelled only after that, so cancellation
does not affect recorded outcomes and is not modelled.  The check
`time.time() < end_time` and the following `queue.put` are one atomic
step of the model.  `make_request` records the outcome in the sink
before `task_done` runs, so `doneIds` are the ids whose outcome is in
the final outcome set. -/

/-- Scheduler state of the duration-bound run. -/
structure DurState where
  now : Nat
  admitting : Bool
  nextId : Nat
  admitLog : List (Nat × Nat)
  queue : List Nat
  hand : List Nat
  running : List Nat
  sem : Nat
  activeWorkers : Nat
  doneIds : List Nat
deriving DecidableEq

/-- Initial state: clock at the run's `start_time` (taken as 0), the
driver admitting, the semaphore at `c` permits, `c` live workers. -/
def durInit (c : Nat) : DurState :=
  ⟨0, true, 0, [], [], [], [], c, c, []⟩

/-- One scheduler step of `run_duration_test` with concurrency `c` and
deadline `d` (the model of `end_time - start_time`). -/
inductive DurStep (c d : Nat) : DurState → DurState → Prop
  /-- Wall-clock time advances. -/
  | tick (s : DurState) (k : Nat) :
      DurStep c d s { s with now := s.now + k }
  /-- Driver loop body: the guard `time.time() < end_time` holds, so
  `request_id` is put on the queue and incremented. -/
  | putRequest (s : DurState) :
      s.admitting = true → s.now < d →
      DurStep c d s
        { s with
          nextId := s.nextId + 1
          admitLog := s.admitLog ++ [(s.nextId, s.now)]
          queue := s.queue ++ [s.nextId] }
  /-- Driver loop exit: the guard fails at the deadline; the driver
  moves on to `request_queue.flatten()` and admits nothing further. -/
  | stopAdmitting (s : DurState) :
      s.admitting = true → d ≤ s.now →
      DurStep c d s { s with admitting := false }
  /-- An idle worker's `await asyncio.wait_for(request_queue.get(), ...)`
  returns the head of the queue. -/
  | putIntoHand (s : DurState) (id : Nat) (rest : List Nat) :
      s.queue = id :: rest →
      s.hand.length + s.running.length < s.activeWorkers →
      DurStep c d s { s with queue := rest, hand := s.hand ++ [id] }
  /-- A worker holding an id enters `async with semaphore`, which
  requires a free permit, and starts `make_request`. -/
  | acquireSem (s : DurState) (id : Nat) :
      id ∈ s.hand → 0 < s.sem →
      DurStep c d s
        { s with
          hand := s.hand.erase id
          running := s.running ++ [id]
          sem := s.sem - 1 }
  /-- A `make_request` invocation completes (its outcome now recorded
  in the sink), the semaphore is released, `task_done` is called. -/
  | finishWork (s : DurState) (id : Nat) :
      id ∈ s.running →
      DurStep c d s
        { s with
          running := s.running.erase id
          sem := s.sem + 1
          doneIds := s.doneIds ++ [id] }
  /-- An idle worker's 1-second `wait_for` on the empty queue expires
  and the worker breaks out of its loop. -/
  | workerQuit (s : DurState) :
      s.queue = [] →
      s.hand.length + s.running.length < s.activeWorkers →
      DurStep c d s { s with activeWorkers := s.activeWorkers - 1 }

/-- States the duration-bound run can reach. -/
inductive DurReachable (c d : Nat) : DurState → Prop
  | init : DurReachable c d (durInit c)
  | step {s s' : DurState} :
      DurReachable c d s → DurStep c d s s' → DurReachable c d s'

/-- `request_queue.flatten()` has returned and the run is over: the
driver stopped admitting and every admitted id has had `task_done`
called (no id is still queued, in a worker's hand, or running). -/
def Finished (s : DurState) : Prop :=
  s.admitting = false ∧ s.queue = [] ∧ s.hand = [] ∧ s.running = []

/-- Inductive invariant of the duration-bound run:
1. permits held (`running`) plus free permits equal `c`;
2. the admission log lists exactly the ids `0..nextId-1`, in order;
3. every admission happened strictly before the deadline;
4. each admitted id is in exactly one stage of the pipeline
   (membership form: admitted iff queued, in hand, running or done). -/
def DurInv (c d : Nat) (s : DurState) : Prop :=
  s.running.length + s.sem = c ∧
  s.admitLog.map Prod.fst = List.range s.nextId ∧
  (∀ p ∈ s.admitLog, p.2 < d) ∧
  (∀ id : Nat, id < s.nextId ↔
    (id ∈ s.queue ∨ id ∈ s.hand ∨ id ∈ s.running ∨ id ∈ s.doneIds))

lemma durInv_init (c d : Nat) : DurInv c d (durInit c) := by
  refine ⟨by simp [durInit], rfl, by simp [durInit], ?_⟩
  intro id
  simp [durInit]

lemma durInv_step {c d : Nat} {s s' : DurState}
    (hinv : DurInv c d s) (hstep : DurStep c d s s') : DurInv c d s' := by
  obtain ⟨h1, h2, h3, h4⟩ := hinv
  cases hstep with
  | tick k => exact ⟨h1, h2, h3, h4⟩
  | putRequest ha hd =>
      refine ⟨h1, ?_, ?_, ?_⟩
      · simp only [List.map_append, h2, List.map_cons, List.map_nil]
        exact (List.range_succ (n := s.nextId)).symm
      · intro p hp
        rcases List.mem_append.1 hp with hp | hp
        · exact h3 p hp
        · simp only [List.mem_singleton] at hp
          subst hp
          exact hd
      · intro id
        constructor
        · intro hid
          rcases Nat.lt_succ_iff_lt_or_eq.1 hid with hid | hid
          · rcases (h4 id).1 hid with h | h | h | h
            · exact Or.inl (List.mem_append.2 (Or.inl h))
            · exact Or.inr (Or.inl h)
            · exact Or.inr (Or.inr (Or.inl h))
            · exact Or.inr (Or.inr (Or.inr h))
          · subst hid
            exact Or.inl (List.mem_append.2 (Or.inr (List.mem_singleton.2 rfl)))
        · intro hid
          rcases hid with h | h | h | h
          · rcases List.mem_append.1 h with h | h
            · exact Nat.lt_succ_of_lt ((h4 id).2 (Or.inl h))
            · simp only [List.mem_singleton] at h
              subst h
              exact Nat.lt_succ_self _
          · exact Nat.lt_succ_of_lt ((h4 id).2 (Or.inr (Or.inl h)))
          · exact Nat.lt_succ_of_lt ((h4 id).2 (Or.inr (Or.inr (Or.inl h))))
          · exact Nat.lt_succ_of_lt ((h4 id).2 (Or.inr (Or.inr (Or.inr h))))
  | stopAdmitting ha hd => exact ⟨h1, h2, h3, h4⟩
  | putIntoHand id rest hq hw =>
      refine ⟨h1, h2, h3, ?_⟩
      intro x
      rw [h4 x, hq]
      simp only [List.mem_cons, List.mem_append, List.mem_singleton]
      tauto
  | acquireSem id hh hs =>
      refine ⟨?_, h2, h3, ?_⟩
      · simp only [List.length_append, List.length_singleton]
        omega
      · intro x
        rw [h4 x]
        constructor
        · rintro (h | h | h | h)
          · tauto
          · by_cases hx : x = id
            · subst hx
              exact Or.inr (Or.inr (Or.inl (List.mem_append.2
                (Or.inr (List.mem_singleton.2 rfl)))))
            · exact Or.inr (Or.inl ((List.mem_erase_of_ne hx).2 h))
          · exact Or.inr (Or.inr (Or.inl (List.mem_append.2 (Or.inl h))))
          · tauto
        · rintro (h | h | h | h)
          · tauto
          · exact Or.inr (Or.inl (List.mem_of_mem_erase h))
          · rcases List.mem_append.1 h with h | h
            · tauto
            · simp only [List.mem_singleton] at h
              subst h
              exact Or.inr (Or.inl hh)
          · tauto
  | finishWork id hr =>
      refine ⟨?_, h2, h3, ?_⟩
      · show (s.running.erase id).length + (s.sem + 1) = c
        have := List.length_erase_of_mem hr
        have hpos := List.length_pos_of_mem hr
        omega
      · intro x
        rw [h4 x]
        constructor
        · rintro (h | h | h | h)
          · tauto
          · tauto
          · by_cases hx : x = id
            · subst hx
              exact Or.inr (Or.inr (Or.inr (List.mem_append.2
                (Or.inr (List.mem_singleton.2 rfl)))))
            · exact Or.inr (Or.inr (Or.inl ((List.mem_erase_of_ne hx).2 h)))
          · exact Or.inr (Or.inr (Or.inr (List.mem_append.2 (Or.inl h))))
        · rintro (h | h | h | h)
          · tauto
          · tauto
          · exact Or.inr (Or.inr (Or.inl (List.mem_of_mem_erase h)))
          · rcases List.mem_append.1 h with h | h
            · tauto
            · simp only [List.mem_singleton] at h
              subst h
              exact Or.inr (Or.inr (Or.inl hr))
  | workerQuit hq hw => exact ⟨h1, h2, h3, h4⟩

lemma durInv_reachable {c d : Nat} {s : DurState}
    (h : DurReachable c d s) : DurInv c d s := by
  induction h with
  | init => exact durInv_init c d
  | step _ hstep ih => exact durInv_step ih hstep

lemma countStep_bound {c : Nat} (hc : 0 < c) {st : CountLoopState} (i : Nat)
    (ht : st.tasks.length < c) (hb : ∀ b ∈ st.batches, b.length ≤ c) :
    (countStep c st i).tasks.length < c ∧
      ∀ b ∈ (countStep c st i).batches, b.length ≤ c := by
  unfold countStep
  by_cases h : c ≤ (st.tasks ++ [i]).length
  · simp only [h, if_pos]
    constructor
    · simp only [List.length_drop, List.length_append, List.length_singleton]
      omega
    · intro b hbmem
      rcases List.mem_append.1 hbmem with hbmem | hbmem
      · exact hb b hbmem
      · simp only [List.mem_singleton] at hbmem
        subst hbmem
        simp only [List.length_take]
        omega
  · simp only [h, if_neg, not_false_iff]
    refine ⟨?_, hb⟩
    simp only [List.length_append, List.length_singleton] at h ⊢
    omega

lemma countFold_bound {c : Nat} (hc : 0 < c) (l : List Nat) :
    ∀ st : CountLoopState, st.tasks.length < c →
      (∀ b ∈ st.batches, b.length ≤ c) →
      (l.foldl (countStep c) st).tasks.length < c ∧
        ∀ b ∈ (l.foldl (countStep c) st).batches, b.length ≤ c := by
  induction l with
  | nil => intro st ht hb; exact ⟨ht, hb⟩
  | cons x xs ih =>
      intro st ht hb
      have h := countStep_bound hc x ht hb
      exact ih (countStep c st x) h.1 h.2

lemma countStep_join (c : Nat) (st : CountLoopState) (i : Nat) :
    (countStep c st i).batches.flatten ++ (countStep c st i).tasks =
      st.batches.flatten ++ (st.tasks ++ [i]) := by
  unfold countStep
  by_cases h : c ≤ (st.tasks ++ [i]).length
  · simp only [h, if_pos, List.flatten_append, List.flatten_cons, List.flatten_nil,
      List.append_nil, List.append_assoc, List.take_append_drop]
  · simp only [h, if_neg, not_false_iff]

lemma countFold_join (c : Nat) (l : List Nat) :
    ∀ st : CountLoopState,
      (l.foldl (countStep c) st).batches.flatten ++
          (l.foldl (countStep c) st).tasks =
        st.batches.flatten ++ st.tasks ++ l := by
  induction l with
  | nil => intro st; simp
  | cons x xs ih =>
      intro st
      have h := ih (countStep c st x)
      simp only [List.foldl_cons] at h ⊢
      rw [h, countStep_join]
      simp [List.append_assoc]

lemma countBatches_bound {c : Nat} (hc : 0 < c) (n : Nat) :
    ∀ b ∈ countBatches n c, b.length ≤ c := by
  have h := countFold_bound hc (List.range n) ⟨[], []⟩ (by simpa using hc)
    (by intro b hb; simp at hb)
  unfold countBatches countRun
  by_cases he : ((List.range n).foldl (countStep c) ⟨[], []⟩).tasks = []
  · simp only [he, if_pos]
    exact h.2
  · simp only [he, if_neg, not_false_iff]
    intro b hb
    rcases List.mem_append.1 hb with hb | hb
    · exact h.2 b hb
    · simp only [List.mem_singleton] at hb
      subst hb
      exact Nat.le_of_lt h.1

lemma countBatches_join (n c : Nat) :
    (countBatches n c).flatten = List.range n := by
  have h := countFold_join c (List.range n) ⟨[], []⟩
  simp only [List.flatten_nil, List.nil_append] at h
  unfold countBatches countRun
  by_cases he : ((List.range n).foldl (countStep c) ⟨[], []⟩).tasks = []
  · simp only [he, if_pos]
    simpa [he] using h
  · simp only [he, if_neg, not_false_iff, List.flatten_append, List.flatten_cons,
      List.flatten_nil, List.append_nil]
    exact h

/-! ## `main` and mode selection

`main` parses the arguments, prefixes `http://` when no scheme is
given, constructs the `LoadTester` and calls `run()`.  Nothing on this
path checks the sign of the concurrency limit, the request count or
the duration.  `run()` picks the mode by the Python truthiness test
`if self.duration:`, so `duration = None` and `duration = 0` both fall
back to the count-bound test.  `RunAction.rejected` is the
configuration-rejection outcome the specification calls for; no branch
of the source produces it. -/

/-- The argparse namespace handed to `LoadTester` by `main`. -/
structure ArgsConfig where
  url : String
  concurrent : Int
  requests : Int
  duration : Option Int
  timeout_s : Int
deriving DecidableEq

/-- What happens after `main` constructs the tester: which test (if
any) `run()` starts. -/
inductive RunAction where
  | rejected
  | countTest (total_requests : Int)
  | durationTest (seconds : Int)
deriving DecidableEq

/-- The mode selection performed by `main` / `LoadTester.run`:
`if self.duration:` (Python truthiness) chooses the duration test,
otherwise the count test.  There is no validation branch. -/
def runDispatch (cfg : ArgsConfig) : RunAction :=
  match cfg.duration with
  | some d =>
      if d = 0 then RunAction.countTest cfg.requests
      else RunAction.durationTest d
  | none => RunAction.countTest cfg.requests

/-! ## Concrete states used by witnesses and counterexamples -/

/-- A tester that has recorded nothing at all. -/
def emptyRun : TesterState :=
  { url := "http://example.com", concurrent := 10, total_requests := 100,
    duration := none, timeout_s := 30, results := [], errors := [],
    start_time := 0, end_time := 10 }

/-- A finished run in which every request failed: three timeouts, no
successes. -/
def allErrorRun : TesterState :=
  { url := "http://example.com", concurrent := 10, total_requests := 3,
    duration := none, timeout_s := 30, results := [],
    errors := [⟨0, "Timeout", 30, 0⟩, ⟨1, "Timeout", 30, 1⟩,
               ⟨2, "Timeout", 30, 2⟩],
    start_time := 0, end_time := 90 }

/-- A finished run with 7 successes (status 200) and 3 timeouts. -/
def mixedRun : TesterState :=
  { url := "http://example.com", concurrent := 10, total_requests := 10,
    duration := none, timeout_s := 30,
    results := (List.range 7).map (fun i => ⟨i, 200, 1, 100, i⟩),
    errors := (List.range 3).map (fun i => ⟨7 + i, "Timeout", 30, 7 + i⟩),
    start_time := 0, end_time := 10 }

/-- The final state of a concrete duration-bound run with
`concurrent = 1`, `duration = 1`: one request admitted at time 0,
deadline hit at time 1, the request then dispatched and completed. -/
def durFinal : DurState :=
  ⟨1, false, 1, [(0, 0)], [], [], [], 1, 1, [0]⟩

lemma durFinal_reachable : DurReachable 1 1 durFinal := by
  have h0 : DurReachable 1 1 (durInit 1) := DurReachable.init
  have h1 : DurReachable 1 1
      ⟨0, true, 1, [(0, 0)], [0], [], [], 1, 1, []⟩ :=
    DurReachable.step h0 (DurStep.putRequest (durInit 1) rfl (by decide))
  have h2 : DurReachable 1 1
      ⟨1, true, 1, [(0, 0)], [0], [], [], 1, 1, []⟩ :=
    DurReachable.step h1 (DurStep.tick _ 1)
  have h3 : DurReachable 1 1
      ⟨1, false, 1, [(0, 0)], [0], [], [], 1, 1, []⟩ :=
    DurReachable.step h2 (DurStep.stopAdmitting _ rfl (by decide))
  have h4 : DurReachable 1 1
      ⟨1, false, 1, [(0, 0)], [], [0], [], 1, 1, []⟩ :=
    DurReachable.step h3 (DurStep.putIntoHand _ 0 [] rfl (by decide))
  have h5 : DurReachable 1 1
      ⟨1, false, 1, [(0, 0)], [], [], [0], 0, 1, []⟩ :=
    DurReachable.step h4
      (DurStep.acquireSem _ 0 (List.mem_singleton.2 rfl) (by decide))
  exact DurReachable.step h5
    (DurStep.finishWork _ 0 (List.mem_singleton.2 rfl))

/-! ## Association-list lemmas for `count_status_codes` -/

lemma bump_keys (m : List (Nat × Nat)) (code : Nat) :
    (bump m code).map Prod.fst =
      if code ∈ m.map Prod.fst then m.map Prod.fst
      else m.map Prod.fst ++ [code] := by
  induction m with
  | nil => simp [bump]
  | cons kv rest ih =>
      obtain ⟨k, v⟩ := kv
      by_cases hk : k = code
      · subst hk
        simp [bump]
      · simp only [bump, hk, if_neg, not_false_iff, List.map_cons]
        rw [ih]
        by_cases hc : code ∈ rest.map Prod.fst
        · simp [hc, Ne.symm hk]
        · simp [hc, Ne.symm hk]

lemma bump_keys_mem (m : List (Nat × Nat)) (code x : Nat) :
    x ∈ (bump m code).map Prod.fst ↔ x ∈ m.map Prod.fst ∨ x = code := by
  rw [bump_keys]
  by_cases hc : code ∈ m.map Prod.fst
  · simp only [hc, if_pos]
    exact ⟨Or.inl, fun h => h.elim id (fun hx => hx ▸ hc)⟩
  · simp [hc, List.mem_append]

lemma bump_keys_nodup (m : List (Nat × Nat)) (code : Nat)
    (h : (m.map Prod.fst).Nodup) : ((bump m code).map Prod.fst).Nodup := by
  rw [bump_keys]
  by_cases hc : code ∈ m.map Prod.fst
  · simpa [hc] using h
  · simp [hc, List.nodup_append, h]

lemma bump_lookupCount (m : List (Nat × Nat)) (code x : Nat) :
    lookupCount (bump m code) x =
      if x = code then lookupCount m code + 1 else lookupCount m x := by
  induction m with
  | nil =>
      by_cases hx : x = code
      · subst hx; simp [bump, lookupCount]
      · simp [bump, lookupCount, hx, Ne.symm hx]
  | cons kv rest ih =>
      obtain ⟨k, v⟩ := kv
      by_cases hk : k = code
      · subst hk
        by_cases hx : x = k
        · subst hx; simp [bump, lookupCount]
        · simp [bump, lookupCount, hx, Ne.symm hx]
      · by_cases hx : x = code
        · subst hx
          simp [bump, lookupCount, hk, ih, Ne.symm hk]
        · simp only [bump, hk, if_neg, not_false_iff, lookupCount]
          by_cases hkx : k = x
          · simp [hkx, hx]
          · simp [hkx, hx, ih]

lemma bump_sum (m : List (Nat × Nat)) (code : Nat) :
    ((bump m code).map Prod.snd).sum = ((m.map Prod.snd).sum) + 1 := by
  induction m with
  | nil => simp [bump]
  | cons kv rest ih =>
      obtain ⟨k, v⟩ := kv
      by_cases hk : k = code
      · subst hk; simp [bump]; omega
      · simp [bump, hk, ih]; omega

lemma csc_fold (codes : List Nat) :
    ∀ m : List (Nat × Nat),
      (∀ x, x ∈ (codes.foldl bump m).map Prod.fst ↔
          x ∈ m.map Prod.fst ∨ x ∈ codes) ∧
      ((m.map Prod.fst).Nodup →
        ((codes.foldl bump m).map Prod.fst).Nodup) ∧
      (∀ x, lookupCount (codes.foldl bump m) x =
          lookupCount m x + codes.count x) ∧
      ((codes.foldl bump m).map Prod.snd).sum =
        (m.map Prod.snd).sum + codes.length := by
  induction codes with
  | nil => intro m; simp
  | cons code cs ih =>
      intro m
      obtain ⟨ih1, ih2, ih3, ih4⟩ := ih (bump m code)
      refine ⟨?_, ?_, ?_, ?_⟩
      · intro x
        rw [List.foldl_cons, ih1 x, bump_keys_mem]
        simp only [List.mem_cons]
        tauto
      · intro h
        exact ih2 (bump_keys_nodup m code h)
      · intro x
        rw [List.foldl_cons, ih3 x, bump_lookupCount]
        by_cases hx : x = code
        · subst hx
          rw [if_pos rfl, List.count_cons_self]
          omega
        · simp only [if_neg hx, List.count_cons_of_ne hx]
      · rw [List.foldl_cons, ih4, bump_sum, List.length_cons]
        omega

/-! ## Concrete statistics values -/

/-- The statistics dict `calculate_statistics` produces on `mixedRun`. -/
def mixedStats : Stats :=
  ⟨10, 10, 7, 3, 70, 7 / 10, ⟨1, 1, 1, 1, 1, 1⟩, ⟨100, 100, 100⟩, [(200, 7)]⟩

set_option maxRecDepth 8000 in
lemma mixedRun_eval : calculate_statistics mixedRun = some mixedStats := by
  norm_num [calculate_statistics, mixedRun, mixedStats, listMin, listMax,
    listMean, listMeanN, listMedian, percentile_ones_95, percentile_ones_99,
    count_status_codes, bump, List.range_succ, List.insertionSort,
    List.orderedInsert, List.cons_ne_nil, Int.toNat_ofNat]

/-- The zero-filled statistics dict an all-error run would have to
render according to the specification: zero latency and size
distributions over the `allErrorRun` totals. -/
def zeroFilledStats : Stats :=
  ⟨90, 3, 0, 3, 0, 0, ⟨0, 0, 0, 0, 0, 0⟩, ⟨0, 0, 0⟩, []⟩

/-! ## Claim theorems -/

/-- C1.  In both test modes at most `concurrent` Issuer invocations
(`make_request` calls) execute concurrently: every batch the
count-bound driver gathers has at most `c` tasks, and in every
reachable state of the duration-bound run at most `c` invocations hold
the semaphore (are in flight). -/
theorem concurrency_bound (n c d : Nat) (hc : 0 < c) (s : DurState)
    (hs : DurReachable c d s) :
    (∀ b ∈ countBatches n c, b.length ≤ c) ∧ s.running.length ≤ c := by
  refine ⟨countBatches_bound hc n, ?_⟩
  have h := (durInv_reachable hs).1
  omega

theorem concurrency_bound_witness :
    (∀ b ∈ countBatches 5 1, b.length ≤ 1) ∧
      durFinal.running.length ≤ 1 :=
  concurrency_bound 5 1 1 (by decide) durFinal durFinal_reachable

/-- C2.  In a duration-bound run every admission happens strictly
before the deadline `d`, and once the run finishes (the driver's
`request_queue.join()` has returned) every admitted id has its
recorded outcome in the final outcome set (`doneIds`). -/
theorem duration_deadline_and_drain (c d : Nat) (s : DurState)
    (hs : DurReachable c d s) :
    (∀ p ∈ s.admitLog, p.2 < d) ∧
      (Finished s → ∀ id : Nat, id < s.nextId → id ∈ s.doneIds) := by
  obtain ⟨h1, h2, h3, h4⟩ := durInv_reachable hs
  refine ⟨h3, ?_⟩
  rintro ⟨ha, hq, hh, hr⟩ id hid
  rcases (h4 id).1 hid with h | h | h | h
  · rw [hq] at h
    exact absurd h (List.not_mem_nil id)
  · rw [hh] at h
    exact absurd h (List.not_mem_nil id)
  · rw [hr] at h
    exact absurd h (List.not_mem_nil id)
  · exact h

theorem duration_deadline_and_drain_witness :
    Finished durFinal ∧ 0 ∈ durFinal.doneIds := by
  have h := duration_deadline_and_drain 1 1 durFinal durFinal_reachable
  exact ⟨⟨rfl, rfl, rfl, rfl⟩, h.2 ⟨rfl, rfl, rfl, rfl⟩ 0 (by decide)⟩

/-- C3 counterexample.  At the in-range input `p = 29` on the
ascending 100-element list `0, 1, …, 99`, the source's float index
arithmetic gives `int(0.29 * 100) = 28` (the binary64 value of `29/100`
lies slightly below `29/100`, and the product rounds to
`28.999999999999996…`), so `percentile` returns the element `28` —
while the claimed exact nearest-rank index
`min ⌊29/100 * 100⌋ (100 - 1) = 29` selects the element `29`. -/
theorem percentile_exact_floor_counterexample :
    percentile qList100 29 = 28 ∧
      qList100.Sorted (fun a b => a ≤ b) ∧
      min (⌊(29 : ℚ) / 100 * (qList100.length : ℚ)⌋).toNat
          (qList100.length - 1) = 29 ∧
      qList100.getD 29 0 = 29 ∧
      (28 : ℚ) ≠ 29 := by
  refine ⟨percentile_qList100_29, qList100_sorted, ?_, ?_, by norm_num⟩
  · rw [qList100_length]
    rw [show ((100 : ℕ) : ℚ) = 100 by norm_num]
    rw [show ((29 : ℚ) / 100 * 100) = 29 by norm_num]
    rw [show ⌊(29 : ℚ)⌋ = 29 from Int.floor_eq_iff.2 (by norm_num)]
    decide
  · rw [qList100_getD 29 (by norm_num)]
    norm_num

/-- C3 as amended.  `percentile` is a nearest-rank selection whose
index is computed in binary64 float arithmetic as in the source
(`int((percentile / 100) * len(sorted_data))`): for nonempty data and
`p ∈ [0, 100]` it returns the entry of the ascending sort (any sorted
permutation of the input) at index
`min ⌊fl64 (fl64 (p / 100) * length)⌋ (length - 1)`; this index can
differ from the exact `⌊p / 100 * length⌋` (see the counterexample at
`p = 29`, 100 elements).  In particular the 95th percentile of
`[1, …, 10]` is `10`. -/
theorem percentile_float_index (xs : List ℚ) (p : ℚ)
    (hx : xs ≠ []) (h0 : 0 ≤ p) (h100 : p ≤ 100) :
    (∀ ys : List ℚ, xs.Perm ys → ys.Sorted (fun a b => a ≤ b) →
      min (⌊fl64 (fl64 (p / 100) * (xs.length : ℚ))⌋).toNat (xs.length - 1)
          < xs.length ∧
      percentile xs p =
        ys.getD
          (min (⌊fl64 (fl64 (p / 100) * (xs.length : ℚ))⌋).toNat
            (xs.length - 1)) 0) ∧
    percentile [1, 2, 3, 4, 5, 6, 7, 8, 9, 10] 95 = 10 := by
  constructor
  · intro ys hperm hsort
    have hlen : ys.length = xs.length := (hperm.length_eq).symm
    have hys : List.insertionSort (fun a b => a ≤ b) xs = ys := by
      haveI : IsAntisymm ℚ (fun a b => a ≤ b) := ⟨fun a b => le_antisymm⟩
      exact List.eq_of_perm_of_sorted
        ((List.perm_insertionSort _ xs).trans hperm)
        (List.sorted_insertionSort _ xs) hsort
    have hpos : 0 < xs.length := List.length_pos.2 hx
    constructor
    · omega
    · simp only [percentile]
      rw [hys, hlen, ratFloor_eq_floor]
  · exact percentile_1to10_95

theorem percentile_float_index_witness :
    ([1, 2, 3, 4, 5, 6, 7, 8, 9, 10] : List ℚ) ≠ [] ∧
      (0 : ℚ) ≤ 95 ∧ (95 : ℚ) ≤ 100 ∧
      percentile [1, 2, 3, 4, 5, 6, 7, 8, 9, 10] 95 = 10 := by
  have h := percentile_float_index [1, 2, 3, 4, 5, 6, 7, 8, 9, 10] 95
    (by simp) (by norm_num) (by norm_num)
  exact ⟨by simp, by norm_num, by norm_num, h.2⟩

/-- C4.  Whenever the success list is empty `calculate_statistics`
returns `None` — a distinct "no data" value, not an exception and not
NaN (the function is total into `Option`) — and both of its callers,
`print_report` and `save_report`, test that condition and render no
report. -/
theorem no_data_signal (s : TesterState) (h : s.results = []) :
    calculate_statistics s = none ∧
      print_report s = ReportOutput.noData ∧
      ∀ now : Nat, save_report s now = none := by
  have hc : calculate_statistics s = none := by
    simp [calculate_statistics, h]
  refine ⟨hc, ?_, ?_⟩
  · simp [print_report, hc]
  · intro now
    simp [save_report, hc]

theorem no_data_signal_witness :
    emptyRun.results = [] ∧ calculate_statistics emptyRun = none ∧
      print_report emptyRun = ReportOutput.noData ∧
      save_report emptyRun 0 = none := by
  have h := no_data_signal emptyRun rfl
  exact ⟨rfl, h.1, h.2.1, h.2.2 0⟩

/-- C5 counterexample.  On a run where every request errored
(`allErrorRun`: zero successes, three timeouts) `print_report` renders
no statistics report at all — in particular not one with zero-filled
latency/size statistics — it prints the "no successful requests"
message instead. -/
theorem zero_filled_report_counterexample :
    print_report allErrorRun = ReportOutput.noData ∧
      print_report allErrorRun ≠ ReportOutput.report zeroFilledStats := by
  have hc : calculate_statistics allErrorRun = none := by
    simp [calculate_statistics, allErrorRun]
  constructor
  · simp [print_report, hc]
  · simp [print_report, hc]

/-- C5 as amended.  A run with zero successes produces no statistics
report: `calculate_statistics` signals "no data" (`None`) and
`print_report` surfaces that distinctly (its no-data message is never
produced for a run with at least one success, even a zero-latency
one). -/
theorem zero_success_no_data_report (s : TesterState)
    (h : s.results = []) (he : s.errors ≠ []) :
    calculate_statistics s = none ∧
      print_report s = ReportOutput.noData ∧
      ∀ s' : TesterState, s'.results ≠ [] →
        print_report s' ≠ ReportOutput.noData := by
  have hc : calculate_statistics s = none := by
    simp [calculate_statistics, h]
  refine ⟨hc, by simp [print_report, hc], ?_⟩
  intro s' hs' hcontra
  unfold print_report at hcontra
  cases hcal : calculate_statistics s' with
  | none =>
      unfold calculate_statistics at hcal
      simp [hs'] at hcal
  | some st => simp [hcal] at hcontra

theorem zero_success_no_data_report_witness :
    allErrorRun.results = [] ∧ allErrorRun.errors ≠ [] ∧
      calculate_statistics allErrorRun = none ∧
      print_report allErrorRun = ReportOutput.noData := by
  have h := zero_success_no_data_report allErrorRun rfl (by simp [allErrorRun])
  exact ⟨rfl, by simp [allErrorRun], h.1, h.2.1⟩

/-- C6 counterexample.  The configuration with `duration = 0` (a
non-positive duration) is not rejected: Python truthiness makes
`run()` fall back to the count-bound test, which issues
`total_requests = 100` requests. -/
theorem config_rejection_counterexample :
    runDispatch ⟨"http://example.com", 10, 100, some 0, 30⟩ =
        RunAction.countTest 100 ∧
      runDispatch ⟨"http://example.com", 10, 100, some 0, 30⟩ ≠
        RunAction.rejected ∧
      countIssuedIds 100 ≠ [] := by
  refine ⟨rfl, by simp [runDispatch], ?_⟩
  simp [countIssuedIds]

/-- C6 as amended.  The program performs no pre-run configuration
validation: no configuration is ever rejected before the run starts.
A configured duration of `0` falls through (Python truthiness) to the
count-bound mode with the configured request count, and a non-positive
request count makes the count-bound run issue no requests at all
(rather than being rejected). -/
theorem config_never_rejected (cfg : ArgsConfig) :
    runDispatch cfg ≠ RunAction.rejected ∧
      (cfg.duration = some 0 → runDispatch cfg = RunAction.countTest cfg.requests) ∧
      (cfg.requests ≤ 0 → countIssuedIds cfg.requests = []) := by
  refine ⟨?_, ?_, ?_⟩
  · unfold runDispatch
    cases cfg.duration with
    | none => simp
    | some dur =>
        by_cases hd : dur = 0
        · simp [hd]
        · simp [hd]
  · intro h
    unfold runDispatch
    rw [h]
    simp
  · intro h
    unfold countIssuedIds
    have : cfg.requests.toNat = 0 := Int.toNat_of_nonpos h
    rw [this]
    rfl

theorem config_never_rejected_witness :
    runDispatch ⟨"http://example.com", 0, 0, some 0, 30⟩ ≠
        RunAction.rejected ∧
      runDispatch ⟨"http://example.com", 0, 0, some 0, 30⟩ =
        RunAction.countTest 0 ∧
      countIssuedIds 0 = [] := by
  have h := config_never_rejected ⟨"http://example.com", 0, 0, some 0, 30⟩
  exact ⟨h.1, h.2.1 rfl, h.2.2 (by decide)⟩

/-- C7.  Whenever statistics are computed, `total_requests` is the sum
of the success and error counts, `failed_requests` is the error count,
the success rate is `successes / total * 100` (the `total = 0` guard
of the source is unreachable, since statistics exist only when at
least one success was recorded), and the 7-success/3-timeout run
yields rate 70, 3 failures and histogram `{200: 7}`. -/
theorem statistics_totals (s : TesterState) (st : Stats)
    (h : calculate_statistics s = some st) :
    st.total_requests = s.results.length + s.errors.length ∧
      st.successful_requests = s.results.length ∧
      st.failed_requests = s.errors.length ∧
      0 < st.total_requests ∧
      (st.total_requests = 0 → st.success_rate = 0) ∧
      st.success_rate =
        (s.results.length : ℚ) /
          ((s.results.length : ℚ) + (s.errors.length : ℚ)) * 100 ∧
      calculate_statistics mixedRun = some mixedStats ∧
      mixedStats.success_rate = 70 ∧ mixedStats.failed_requests = 3 ∧
      mixedStats.status_codes = [(200, 7)] := by
  unfold calculate_statistics at h
  by_cases hr : s.results = []
  · simp [hr] at h
  · rw [if_neg hr] at h
    have hst := (Option.some.inj h).symm
    subst hst
    have hpos : 0 < s.results.length := List.length_pos.2 hr
    refine ⟨rfl, rfl, rfl, by simpa using Or.inl hpos, ?_, ?_,
      mixedRun_eval, rfl, rfl, rfl⟩
    · intro h0
      have h0' : s.results.length + s.errors.length = 0 := h0
      omega
    · show (if 0 < s.results.length + s.errors.length
          then (s.results.length : ℚ) /
            ((s.results.length + s.errors.length : Nat) : ℚ) * 100
          else 0) = _
      rw [if_pos (by omega)]
      push_cast
      ring

theorem statistics_totals_witness :
    calculate_statistics mixedRun = some mixedStats ∧
      mixedStats.total_requests =
        mixedRun.results.length + mixedRun.errors.length ∧
      mixedStats.success_rate = 70 ∧ mixedStats.failed_requests = 3 ∧
      mixedStats.status_codes = [(200, 7)] := by
  have h := statistics_totals mixedRun mixedStats mixedRun_eval
  exact ⟨mixedRun_eval, h.1, h.2.2.2.2.2.2.2.1, h.2.2.1, rfl⟩

/-- C8.  Every `make_request` invocation returns an outcome value
(the embedding is a total function — no exception crosses the
boundary): a timeout becomes an error outcome with message
`"Timeout"`, any other failure becomes an error outcome carrying the
failure's string, and a response becomes a success outcome; in each
case the outcome is also appended to the corresponding sink list. -/
theorem issuer_outcome_values (s : TesterState) (id : Nat)
    (net : NetResult) (t0 t1 : ℚ) (ts : Nat) :
    (net = NetResult.timeout →
      make_request s id net t0 t1 ts =
        ({ s with errors := s.errors ++ [⟨id, "Timeout", t1 - t0, ts⟩] },
          Outcome.failure ⟨id, "Timeout", t1 - t0, ts⟩)) ∧
    (∀ m : String, net = NetResult.failure m →
      make_request s id net t0 t1 ts =
        ({ s with errors := s.errors ++ [⟨id, m, t1 - t0, ts⟩] },
          Outcome.failure ⟨id, m, t1 - t0, ts⟩)) ∧
    (∀ code : Nat, ∀ body : String, net = NetResult.success code body →
      make_request s id net t0 t1 ts =
        ({ s with
            results := s.results ++ [⟨id, code, t1 - t0, body.length, ts⟩] },
          Outcome.success ⟨id, code, t1 - t0, body.length, ts⟩)) := by
  refine ⟨?_, ?_, ?_⟩
  · rintro rfl
    rfl
  · rintro m rfl
    rfl
  · rintro code body rfl
    rfl

theorem issuer_outcome_values_witness :
    (make_request emptyRun 0 NetResult.timeout 0 1 2).2 =
        Outcome.failure ⟨0, "Timeout", 1 - 0, 2⟩ ∧
      (make_request emptyRun 1 (NetResult.failure "boom") 0 1 2).2 =
        Outcome.failure ⟨1, "boom", 1 - 0, 2⟩ ∧
      (make_request emptyRun 2 (NetResult.success 200 "ok") 0 1 2).2 =
        Outcome.success ⟨2, 200, 1 - 0, 2, 2⟩ := by
  refine ⟨?_, ?_, ?_⟩
  · exact congrArg Prod.snd
      ((issuer_outcome_values emptyRun 0 NetResult.timeout 0 1 2).1 rfl)
  · exact congrArg Prod.snd
      ((issuer_outcome_values emptyRun 1 (NetResult.failure "boom") 0 1 2).2.1
        "boom" rfl)
  · exact congrArg Prod.snd
      ((issuer_outcome_values emptyRun 2 (NetResult.success 200 "ok") 0 1 2).2.2
        200 "ok" rfl)

/-- C9.  Request ids are assigned monotonically from 0 in admission
order and are unique: the count-bound test issues exactly the ids
`0..n-1` (the flattening of its batches, in order, is `range n`), and
in every reachable state of the duration-bound run the admission log's
ids are exactly `0, 1, …, nextId - 1` in admission order (strictly
increasing, gap-free, starting at 0). -/
theorem request_id_assignment (n c d : Nat) (s : DurState)
    (hs : DurReachable c d s) :
    (countBatches n c).flatten = List.range n ∧
      s.admitLog.map Prod.fst = List.range s.nextId :=
  ⟨countBatches_join n c, (durInv_reachable hs).2.1⟩

theorem request_id_assignment_witness :
    (countBatches 5 1).flatten = List.range 5 ∧
      durFinal.admitLog.map Prod.fst = List.range durFinal.nextId :=
  request_id_assignment 5 1 1 durFinal durFinal_reachable

/-- C10.  `count_status_codes` maps exactly the distinct codes of its
input (no duplicate keys) to their occurrence counts, and the counts
sum to the input length. -/
theorem count_status_codes_spec (codes : List Nat) :
    (∀ x, x ∈ (count_status_codes codes).map Prod.fst ↔ x ∈ codes) ∧
      ((count_status_codes codes).map Prod.fst).Nodup ∧
      (∀ x, lookupCount (count_status_codes codes) x = codes.count x) ∧
      ((count_status_codes codes).map Prod.snd).sum = codes.length := by
  obtain ⟨h1, h2, h3, h4⟩ := csc_fold codes []
  refine ⟨?_, h2 (by simp), ?_, by simpa using h4⟩
  · intro x
    simpa using h1 x
  · intro x
    simpa [lookupCount] using h3 x
